import Mathlib

/-!
Shallow embedding of the report-fetching core of the shams-report repository
(file reportFetcher.js). The embedding models:

* the endpoint registry (ENDPOINTS) as a lookup from report name to path;
* the in-memory TTL cache (reportCache) as an association list threaded
  through the fetch function, with an explicit clock value per invocation;
* the upstream HTTP interaction as a script of responses (Resp): each
  axios.get consumes the next scripted response, which is either a thrown
  error or a page of records with an optional next_start_key;
* the retry loop (3 attempts, delay doubling from 1000 ms) and the inner
  pagination loop with its early-exit policy and maxRows cap;
* the per-report post-processing: duration derivation, first-seen
  deduplication per call_id, and history-array truncation.

JavaScript truthiness is modelled explicitly: an absent field is none, and
a present numeric 0 or empty string is falsy, exactly as in the source
conditions such as (!record.talked_duration && record.hangup_time).
-/

namespace ShamsReport

/-- A report row. Fields used by the normalization code are explicit; all
remaining report-dependent columns are collected in `other`, which the
normalization code never touches. History entries are opaque tokens. -/
structure Rec where
  call_id : Option String
  called_time : Option Int
  answered_time : Option Int
  hangup_time : Option Int
  wait_duration : Option Int
  talked_duration : Option Int
  agent_history : Option (List String)
  queue_history : Option (List String)
  other : List (String × String)
deriving DecidableEq

/-- Query-window parameters of a fetch call (reportFetcher.js params). -/
structure FetchParams where
  startDate : Option Int
  endDate : Option Int
  maxRows : Option Int
deriving DecidableEq

/-- JavaScript truthiness of an optional number: undefined, null and 0 are
falsy; every other number is truthy. -/
def jsTruthyInt : Option Int → Bool
  | none => false
  | some v => v != 0

/-- JavaScript truthiness of an optional string: undefined, null and the
empty string are falsy. -/
def jsTruthyStr : Option String → Bool
  | none => false
  | some s => s != ""

/-- ENDPOINTS registry of reportFetcher.js: report name to upstream path,
none when the name is not a key of the object. -/
def ENDPOINTS (report : String) : Option String :=
  if report = "cdrs" then some "/api/v2/reports/cdrs"
  else if report = "queueCalls" then some "/api/v2/reports/queues_cdrs"
  else if report = "queueOutboundCalls" then some "/api/v2/reports/queues_outbound_cdrs"
  else if report = "campaignsActivity" then some "/api/v2/reports/campaigns/leads/history"
  else none

/-- MAX_RETRIES constant of reportFetcher.js. -/
def MAX_RETRIES : Nat := 3

/-- CACHE_TTL constant of reportFetcher.js: ms of 5m, in milliseconds. -/
def CACHE_TTL : Nat := 300000

/-- makeCacheKey of reportFetcher.js: template string
report|tenant|startDate|endDate with missing dates defaulting to the empty
string. -/
def makeCacheKey (report tenant : String) (params : FetchParams) : String :=
  report ++ "|" ++ tenant ++ "|"
    ++ (match params.startDate with | some n => toString n | none => "")
    ++ "|"
    ++ (match params.endDate with | some n => toString n | none => "")

/-- A cache entry: absolute expiry instant and the stored row array. -/
structure CacheEntry where
  expires : Nat
  data : List Rec
deriving DecidableEq

/-- The reportCache map, modelled as an association list. -/
abbrev Cache := List (String × CacheEntry)

/-- reportCache.get. -/
def cacheGet (cache : Cache) (key : String) : Option CacheEntry :=
  match cache.find? (fun kv => kv.1 == key) with
  | some kv => some kv.2
  | none => none

/-- reportCache.set: unconditional overwrite of the key. -/
def cacheSet (cache : Cache) (key : String) (e : CacheEntry) : Cache :=
  (key, e) :: cache.filter (fun kv => kv.1 != key)

/-- One scripted upstream interaction: the axios.get either throws (err,
carrying an opaque error id) or yields a page of records together with the
optional next_start_key of the response body. -/
inductive Resp
  | err (e : Nat)
  | page (records : List Rec) (nextKey : Option String)
deriving DecidableEq

/-- The remaining-row computation of the pagination loop:
maxRows ? (maxRows - out.length) : records.length, with JavaScript
truthiness of maxRows. -/
def jsRemaining (maxRows : Option Int) (outLen recsLen : Nat) : Int :=
  if jsTruthyInt maxRows then maxRows.getD 0 - outLen else (recsLen : Int)

/-- Appending one page to the accumulator:
if (remaining > 0) out.push(...records.slice(0, remaining)). -/
def pushPage (maxRows : Option Int) (out recs : List Rec) : List Rec :=
  let remaining := jsRemaining maxRows out.length recs.length
  if 0 < remaining then out ++ recs.take remaining.toNat else out

/-- Result of one attempt of the retry loop: either the pagination loop
finished (rows plus the last captured next_start_key), or the upstream
threw; a failure carries the accumulator as it stood at the throw, since
the out variable lives outside the retry loop in the source. -/
inductive AttemptStep
  | ok (rows : List Rec) (next : Option String)
  | fail (e : Nat) (out : List Rec)
deriving DecidableEq

/-- The inner while(true) pagination loop of one attempt, consuming the
response script. Returns none only when the script is exhausted while the
loop still wanted a further page (no counterpart in the source, where the
upstream always answers or throws). -/
def attemptLoop : List Resp → Option Int → List Rec → Option (AttemptStep × List Resp)
  | [], _, _ => none
  | Resp.err e :: rest, _, out => some (.fail e out, rest)
  | Resp.page recs k :: rest, maxRows, out =>
    let out2 := pushPage maxRows out recs
    if out2.length > 0 then some (.ok out2 k, rest)
    else
      match k with
      | none => some (.ok out2 none, rest)
      | some _ => attemptLoop rest maxRows out2

/-- The retry for-loop: attemptsLeft counts down from MAX_RETRIES, delay
doubles from 1000. On a non-final failure the loop sleeps for the current
delay (recorded in the returned list) and retries with the accumulator the
failed attempt left behind. The final failure propagates the error. -/
def retryLoop : Nat → Nat → List Resp → Option Int → List Rec →
    Option (Except Nat (List Rec × Option String) × List Nat × List Resp)
  | 0, _, _, _, _ => none
  | attemptsLeft + 1, delay, resps, maxRows, out =>
    match attemptLoop resps maxRows out with
    | none => none
    | some (.ok rows k, rest) => some (.ok (rows, k), [], rest)
    | some (.fail e out2, rest) =>
      if attemptsLeft = 0 then some (.error e, [], rest)
      else
        match retryLoop attemptsLeft (delay * 2) rest maxRows out2 with
        | none => none
        | some (res, sleeps, rest2) => some (res, delay :: sleeps, rest2)

/-- First normalization statement for queue reports:
if (!record.talked_duration && record.hangup_time && record.answered_time)
  record.talked_duration = record.hangup_time - record.answered_time. -/
def deriveTalked (r : Rec) : Rec :=
  if !jsTruthyInt r.talked_duration && jsTruthyInt r.hangup_time
      && jsTruthyInt r.answered_time then
    { r with talked_duration := some (r.hangup_time.getD 0 - r.answered_time.getD 0) }
  else r

/-- Second normalization statement for queue reports:
if (!record.wait_duration && record.called_time) then prefer
answered_time - called_time, else hangup_time - called_time. -/
def deriveWait (r : Rec) : Rec :=
  if !jsTruthyInt r.wait_duration && jsTruthyInt r.called_time then
    if jsTruthyInt r.answered_time then
      { r with wait_duration := some (r.answered_time.getD 0 - r.called_time.getD 0) }
    else if jsTruthyInt r.hangup_time then
      { r with wait_duration := some (r.hangup_time.getD 0 - r.called_time.getD 0) }
    else r
  else r

/-- The duration-derivation forEach body of reportFetcher.js. -/
def deriveDurations (r : Rec) : Rec :=
  deriveWait (deriveTalked r)

/-- The queueCalls first-seen grouping loop: rows with a falsy call_id are
kept unconditionally; otherwise the first row per call_id wins, tracked by
the seen set (modelled as a list). -/
def dedupFirst : List Rec → List String → List Rec
  | [], _ => []
  | r :: rest, seen =>
    if !jsTruthyStr r.call_id then r :: dedupFirst rest seen
    else if seen.contains (r.call_id.getD "") then dedupFirst rest seen
    else r :: dedupFirst rest (r.call_id.getD "" :: seen)

/-- The queueCalls agent_history truncation:
if (Array.isArray(r.agent_history) && r.agent_history.length > 1)
  r.agent_history = [r.agent_history[0]]. -/
def truncAgentHistory (r : Rec) : Rec :=
  match r.agent_history with
  | some h => if h.length > 1 then { r with agent_history := some (h.take 1) } else r
  | none => r

/-- The queueOutboundCalls queue_history truncation:
if (Array.isArray(rec.queue_history) && rec.queue_history.length > 1)
  rec.queue_history = [rec.queue_history[0]]. -/
def truncQueueHistory (r : Rec) : Rec :=
  match r.queue_history with
  | some h => if h.length > 1 then { r with queue_history := some (h.take 1) } else r
  | none => r

/-- The post-processing section of fetchReport, dispatching on the report
name exactly as the source chain of if statements does. -/
def postProcess (report : String) (out : List Rec) : List Rec :=
  let out1 :=
    if report = "queueCalls" ∨ report = "queueOutboundCalls" then
      out.map deriveDurations
    else out
  if report = "queueCalls" then (dedupFirst out1 []).map truncAgentHistory
  else if report = "queueOutboundCalls" then out1.map truncQueueHistory
  else out1

/-- The thrown error of fetchReport: the unknown-report fast failure or a
propagated upstream error. -/
inductive JsError
  | unknownReport (report : String)
  | upstream (e : Nat)
deriving DecidableEq

/-- A fetchReport return value: the fresh path returns the object with
rows and next fields; the cache-hit path returns a bare array (a shallow
copy of the cached data). -/
inductive JsValue
  | arr (rows : List Rec)
  | obj (rows : List Rec) (next : Option String)
deriving DecidableEq

/-- Whether a return value is an object of shape with rows and next
fields. -/
def JsValue.isRowsNext : JsValue → Bool
  | .arr _ => false
  | .obj _ _ => true

/-- The cache-miss tail of fetchReport: retry loop, post-processing, cache
write (with expiry now + CACHE_TTL) and the object return value. -/
def fetchFresh (report tenant : String) (params : FetchParams) (cache : Cache)
    (now : Nat) (resps : List Resp) :
    Option (Except JsError JsValue × Cache × List Nat × List Resp) :=
  match retryLoop MAX_RETRIES 1000 resps params.maxRows [] with
  | none => none
  | some (.error e, sleeps, rest) => some (.error (.upstream e), cache, sleeps, rest)
  | some (.ok (out, k), sleeps, rest) =>
    let rows := postProcess report out
    some (.ok (.obj rows k),
      cacheSet cache (makeCacheKey report tenant params) ⟨now + CACHE_TTL, rows⟩,
      sleeps, rest)

/-- fetchReport of reportFetcher.js. The result quadruple is the returned
or thrown value, the cache after the call, the list of backoff sleeps
performed, and the unconsumed remainder of the upstream script (so that
zero upstream calls shows as an unchanged script). -/
def fetchReport (report tenant : String) (params : FetchParams) (cache : Cache)
    (now : Nat) (resps : List Resp) :
    Option (Except JsError JsValue × Cache × List Nat × List Resp) :=
  if ENDPOINTS report = none then
    some (.error (.unknownReport report), cache, [], resps)
  else
    match cacheGet cache (makeCacheKey report tenant params) with
    | some entry =>
      if now < entry.expires then some (.ok (.arr entry.data), cache, [], resps)
      else fetchFresh report tenant params cache now resps
    | none => fetchFresh report tenant params cache now resps

/-- A row with every field absent. -/
def recNil : Rec := ⟨none, none, none, none, none, none, none, none, []⟩

/-- Params with no dates and no row cap. -/
def params0 : FetchParams := ⟨none, none, none⟩

/-- Concrete rows used in scenario evaluations, distinguished by an
untouched extra column. -/
def rec0 : Rec := { recNil with other := [("tag", "0")] }

def rec1 : Rec := { recNil with other := [("tag", "1")] }

/-- A cache holding a live entry for the cdrs/t window key. -/
def cacheHit0 : Cache := [("cdrs|t||", ⟨1, [rec0]⟩)]

/-- A cache lookup that misses: either no entry under the key, or only an
expired one. -/
def cacheMiss (cache : Cache) (key : String) (now : Nat) : Prop :=
  ∀ e, cacheGet cache key = some e → e.expires ≤ now

/-- The exponential backoff schedule: j sleeps starting at delay, each
double the previous. -/
def backoffs (delay : Nat) : Nat → List Nat
  | 0 => []
  | j + 1 => delay :: backoffs (delay * 2) j

/-- The concrete queueCalls row of the duration-derivation example. -/
def rEx : Rec :=
  { recNil with called_time := some 100, answered_time := some 150, hangup_time := some 200 }

/-- The expected normalization of rEx. -/
def rExN : Rec := { rEx with wait_duration := some 50, talked_duration := some 50 }

/-- A queueCalls row with talked_duration absent, hangup_time 200 and a
present-but-zero answered_time. -/
def r7 : Rec := { recNil with hangup_time := some 200, answered_time := some 0 }

/-- The first-seen row of the queueCalls dedup example. -/
def rX1 : Rec :=
  { recNil with call_id := some "X", agent_history := some ["e1", "e2"], other := [("tag", "1")] }

def rX2 : Rec :=
  { recNil with call_id := some "X", agent_history := some ["f1", "f2"], other := [("tag", "2")] }

def rX1t : Rec := { rX1 with agent_history := some ["e1"] }

/-- Rows of the C8 counterexample: both carry the empty-string call_id. -/
def rE1 : Rec := { recNil with call_id := some "", agent_history := some ["h1"] }

def rE2 : Rec := { recNil with call_id := some "", agent_history := some ["h2"] }

/-- The concrete queueOutboundCalls row of the C9 example. -/
def rQ : Rec :=
  { recNil with queue_history := some ["a", "b", "c"], agent_history := some ["x", "y"] }

example : fetchReport "cdrs" "t" params0 [] 0 [Resp.page [rec0] none] =
    some (.ok (.obj [rec0] none), [("cdrs|t||", ⟨300000, [rec0]⟩)], [], []) := by
  rfl

example : fetchReport "cdrs" "t" params0 [] 0
      [Resp.page [rec0] (some "C"), Resp.page [rec1] none] =
    some (.ok (.obj [rec0] (some "C")), [("cdrs|t||", ⟨300000, [rec0]⟩)], [],
      [Resp.page [rec1] none]) := by
  rfl

example : fetchReport "cdrs" "t" params0 [] 0 [Resp.err 1, Resp.err 2, Resp.err 3] =
    some (.error (.upstream 3), [], [1000, 2000], []) := by
  rfl

theorem cacheGet_cacheSet_self (cache : Cache) (key : String) (e : CacheEntry) :
    cacheGet (cacheSet cache key e) key = some e := by
  simp [cacheGet, cacheSet, List.find?]

/-- A successful fetchFresh result is always the rows-and-next object, and
the returned cache is the input cache with the normalized rows written
under the window key with expiry now + CACHE_TTL. -/
theorem fetchFresh_ok (report tenant : String) (params : FetchParams) (cache : Cache)
    (now : Nat) (resps : List Resp) (v : JsValue) (c2 : Cache) (sleeps : List Nat)
    (rest : List Resp)
    (h : fetchFresh report tenant params cache now resps = some (.ok v, c2, sleeps, rest)) :
    ∃ rows next, v = .obj rows next ∧
      c2 = cacheSet cache (makeCacheKey report tenant params) ⟨now + CACHE_TTL, rows⟩ := by
  unfold fetchFresh at h
  cases hr : retryLoop MAX_RETRIES 1000 resps params.maxRows [] with
  | none => rw [hr] at h; exact absurd h (by simp)
  | some x =>
    obtain ⟨res, sl, rst⟩ := x
    rw [hr] at h
    cases res with
    | error e => simp at h
    | ok p =>
      obtain ⟨out, k⟩ := p
      simp only [Option.some.injEq, Prod.mk.injEq, Except.ok.injEq] at h
      obtain ⟨hv, hc, -, -⟩ := h
      exact ⟨postProcess report out, k, hv.symm, hc.symm⟩

/-- A successful fetchReport result of object shape came from the fresh
path: the registry lookup succeeded and the returned cache is the write of
the returned rows under the window key. -/
theorem fetchReport_ok_obj (report tenant : String) (params : FetchParams) (cache : Cache)
    (now : Nat) (resps : List Resp) (rows : List Rec) (next : Option String)
    (c2 : Cache) (sleeps : List Nat) (rest : List Resp)
    (h : fetchReport report tenant params cache now resps =
      some (.ok (.obj rows next), c2, sleeps, rest)) :
    ¬ ENDPOINTS report = none ∧
      c2 = cacheSet cache (makeCacheKey report tenant params) ⟨now + CACHE_TTL, rows⟩ := by
  unfold fetchReport at h
  by_cases he : ENDPOINTS report = none
  · rw [if_pos he] at h
    simp at h
  · rw [if_neg he] at h
    refine ⟨he, ?_⟩
    cases hg : cacheGet cache (makeCacheKey report tenant params) with
    | some entry =>
      rw [hg] at h
      dsimp only at h
      by_cases ht : now < entry.expires
      · rw [if_pos ht] at h
        simp at h
      · rw [if_neg ht] at h
        obtain ⟨rows2, next2, hv, hc⟩ := fetchFresh_ok _ _ _ _ _ _ _ _ _ _ h
        cases hv
        exact hc
    | none =>
      rw [hg] at h
      obtain ⟨rows2, next2, hv, hc⟩ := fetchFresh_ok _ _ _ _ _ _ _ _ _ _ h
      cases hv
      exact hc

/-- C1 counterexample: an invocation answered from a live cache entry
completes without error but returns the bare rows array, not an object of
shape with rows and next fields. -/
theorem c1_cache_hit_returns_array :
    fetchReport "cdrs" "t" params0 cacheHit0 0 [] =
      some (.ok (.arr [rec0]), cacheHit0, [], [])
    ∧ JsValue.isRowsNext (.arr [rec0]) = false :=
  ⟨rfl, rfl⟩

/-- C1 (amended): every invocation that completes without error returns
either the rows-and-next object (whenever the result was actually
fetched), or — when answered from a live cache entry — a bare shallow copy
of the cached rows array, with the upstream script untouched. -/
theorem c1_return_shape (report tenant : String) (params : FetchParams) (cache : Cache)
    (now : Nat) (resps : List Resp) (v : JsValue) (c2 : Cache) (sleeps : List Nat)
    (rest : List Resp)
    (h : fetchReport report tenant params cache now resps = some (.ok v, c2, sleeps, rest)) :
    (∃ rows next, v = .obj rows next) ∨
      (∃ e, cacheGet cache (makeCacheKey report tenant params) = some e ∧
        now < e.expires ∧ v = .arr e.data ∧ rest = resps) := by
  unfold fetchReport at h
  by_cases he : ENDPOINTS report = none
  · rw [if_pos he] at h
    simp at h
  · rw [if_neg he] at h
    cases hg : cacheGet cache (makeCacheKey report tenant params) with
    | some entry =>
      rw [hg] at h
      dsimp only at h
      by_cases ht : now < entry.expires
      · rw [if_pos ht] at h
        simp only [Option.some.injEq, Prod.mk.injEq, Except.ok.injEq] at h
        obtain ⟨hv, -, -, hrest⟩ := h
        exact Or.inr ⟨entry, rfl, ht, hv.symm, hrest.symm⟩
      · rw [if_neg ht] at h
        obtain ⟨rows, next, hv, -⟩ := fetchFresh_ok _ _ _ _ _ _ _ _ _ _ h
        exact Or.inl ⟨rows, next, hv⟩
    | none =>
      rw [hg] at h
      obtain ⟨rows, next, hv, -⟩ := fetchFresh_ok _ _ _ _ _ _ _ _ _ _ h
      exact Or.inl ⟨rows, next, hv⟩

theorem c1_return_shape_witness :
    (∃ rows next, JsValue.arr [rec0] = .obj rows next) ∨
      (∃ e, cacheGet cacheHit0 (makeCacheKey "cdrs" "t" params0) = some e ∧
        0 < e.expires ∧ JsValue.arr [rec0] = .arr e.data ∧
        ([] : List Resp) = []) :=
  c1_return_shape "cdrs" "t" params0 cacheHit0 0 [] (.arr [rec0]) cacheHit0 [] [] rfl

/-- C2 counterexample: two identical calls within the TTL; the first
(fresh) call returns the rows-and-next object, the second is answered from
the cache as a bare array, so the second result is not deep-equal to the
first. -/
theorem c2_second_call_not_deep_equal :
    fetchReport "cdrs" "t" params0 [] 0 [Resp.page [rec0] none] =
      some (.ok (.obj [rec0] none), [("cdrs|t||", ⟨300000, [rec0]⟩)], [], [])
    ∧ fetchReport "cdrs" "t" params0 [("cdrs|t||", ⟨300000, [rec0]⟩)] 1 [] =
      some (.ok (.arr [rec0]), [("cdrs|t||", ⟨300000, [rec0]⟩)], [], [])
    ∧ JsValue.arr [rec0] ≠ JsValue.obj [rec0] none :=
  ⟨rfl, rfl, fun h => JsValue.noConfusion h⟩

/-- C2 (amended): after a first call that actually fetched (returning the
rows-and-next object), an identical call within CACHE_TTL of the write is
answered from the cache: it issues zero upstream calls (the script is
untouched), performs no retries, and returns a shallow copy of the first
call's rows array — equal to the rows field of the first result, not to
the whole object. -/
theorem c2_cached_second_call (report tenant : String) (params : FetchParams)
    (cache c1 : Cache) (now1 now2 : Nat) (resps rest1 : List Resp)
    (rows : List Rec) (next : Option String) (sleeps : List Nat)
    (h1 : fetchReport report tenant params cache now1 resps =
      some (.ok (.obj rows next), c1, sleeps, rest1))
    (h2 : now2 < now1 + CACHE_TTL) :
    fetchReport report tenant params c1 now2 rest1 =
      some (.ok (.arr rows), c1, [], rest1) := by
  obtain ⟨hep, hc⟩ := fetchReport_ok_obj _ _ _ _ _ _ _ _ _ _ _ h1
  unfold fetchReport
  rw [if_neg hep, hc, cacheGet_cacheSet_self]
  dsimp only
  rw [if_pos h2]

theorem c2_cached_second_call_witness :
    fetchReport "cdrs" "t" params0 [("cdrs|t||", ⟨300000, [rec0]⟩)] 1 [] =
      some (.ok (.arr [rec0]), [("cdrs|t||", ⟨300000, [rec0]⟩)], [], []) :=
  c2_cached_second_call "cdrs" "t" params0 [] [("cdrs|t||", ⟨300000, [rec0]⟩)]
    0 1 [Resp.page [rec0] none] [] [rec0] none [] rfl (by decide)

/-- C3: for every report name outside the registry, fetchReport fails with
the unknown-report error, leaves the cache untouched, performs no backoff
sleeps, and consumes nothing from the upstream script. -/
theorem c3_unknown_report (report tenant : String) (params : FetchParams)
    (cache : Cache) (now : Nat) (resps : List Resp)
    (h : report ∉ ["cdrs", "queueCalls", "queueOutboundCalls", "campaignsActivity"]) :
    fetchReport report tenant params cache now resps =
      some (.error (.unknownReport report), cache, [], resps) := by
  simp only [List.mem_cons, List.not_mem_nil, or_false, not_or] at h
  obtain ⟨h1, h2, h3, h4⟩ := h
  simp [fetchReport, ENDPOINTS, h1, h2, h3, h4]

theorem c3_unknown_report_witness :
    fetchReport "bogus" "t" params0 [] 0 [Resp.page [rec0] none] =
      some (.error (.unknownReport "bogus"), [], [], [Resp.page [rec0] none]) :=
  c3_unknown_report "bogus" "t" params0 [] 0 [Resp.page [rec0] none] (by decide)

theorem fetchReport_miss (report tenant : String) (params : FetchParams) (cache : Cache)
    (now : Nat) (resps : List Resp)
    (hep : ¬ ENDPOINTS report = none)
    (hmiss : cacheMiss cache (makeCacheKey report tenant params) now) :
    fetchReport report tenant params cache now resps =
      fetchFresh report tenant params cache now resps := by
  unfold fetchReport
  rw [if_neg hep]
  cases hg : cacheGet cache (makeCacheKey report tenant params) with
  | none => rfl
  | some entry =>
    dsimp only
    rw [if_neg (Nat.not_lt.mpr (hmiss entry hg))]

theorem attemptLoop_err (e : Nat) (rest : List Resp) (m : Option Int) (out : List Rec) :
    attemptLoop (Resp.err e :: rest) m out = some (.fail e out, rest) := rfl

theorem attemptLoop_page (recs : List Rec) (k : Option String) (rest : List Resp)
    (m : Option Int) (out : List Rec) :
    attemptLoop (Resp.page recs k :: rest) m out =
      (if (pushPage m out recs).length > 0 then
        some (.ok (pushPage m out recs) k, rest)
      else
        match k with
        | none => some (.ok (pushPage m out recs) none, rest)
        | some _ => attemptLoop rest m (pushPage m out recs)) := rfl

theorem retryLoop_succ (n delay : Nat) (resps : List Resp) (m : Option Int)
    (out : List Rec) :
    retryLoop (n + 1) delay resps m out =
      (match attemptLoop resps m out with
      | none => none
      | some (.ok rows k, rest) => some (.ok (rows, k), [], rest)
      | some (.fail e out2, rest) =>
        if n = 0 then some (.error e, [], rest)
        else
          match retryLoop n (delay * 2) rest m out2 with
          | none => none
          | some (res, sleeps, rest2) => some (res, delay :: sleeps, rest2)) := rfl

/-- A successful attempt ends the retry loop at once: no sleep happens. -/
theorem retryLoop_ok (n delay : Nat) (resps rest : List Resp) (m : Option Int)
    (out rows : List Rec) (k : Option String)
    (h : attemptLoop resps m out = some (.ok rows k, rest)) :
    retryLoop (n + 1) delay resps m out = some (.ok (rows, k), [], rest) := by
  rw [retryLoop_succ, h]

/-- A non-final failed attempt sleeps for the current delay and retries
with the doubled delay. -/
theorem retryLoop_fail_step (n delay e : Nat) (resps rest rest2 : List Resp)
    (m : Option Int) (out out2 : List Rec)
    (res : Except Nat (List Rec × Option String)) (sleeps : List Nat)
    (hn : n ≠ 0)
    (h : attemptLoop resps m out = some (.fail e out2, rest))
    (h2 : retryLoop n (delay * 2) rest m out2 = some (res, sleeps, rest2)) :
    retryLoop (n + 1) delay resps m out = some (res, delay :: sleeps, rest2) := by
  rw [retryLoop_succ, h]
  dsimp only
  rw [if_neg hn, h2]

/-- The failure of the last allowed attempt propagates its error. -/
theorem retryLoop_fail_final (delay e : Nat) (resps rest : List Resp)
    (m : Option Int) (out out2 : List Rec)
    (h : attemptLoop resps m out = some (.fail e out2, rest)) :
    retryLoop 1 delay resps m out = some (.error e, [], rest) := by
  rw [show (1 : Nat) = 0 + 1 from rfl, retryLoop_succ, h]
  rfl

/-- The sleeps performed by the retry loop form a strict prefix of the
doubling backoff schedule: fewer sleeps than allowed attempts. -/
theorem retryLoop_sleeps_backoffs : ∀ (n delay : Nat) (resps : List Resp)
    (m : Option Int) (out : List Rec)
    (res : Except Nat (List Rec × Option String)) (sleeps : List Nat)
    (rest : List Resp),
    retryLoop n delay resps m out = some (res, sleeps, rest) →
    ∃ j, j < n ∧ sleeps = backoffs delay j := by
  intro n
  induction n with
  | zero =>
    intro delay resps m out res sleeps rest h
    simp [retryLoop] at h
  | succ n ih =>
    intro delay resps m out res sleeps rest h
    rw [retryLoop_succ] at h
    cases h1 : attemptLoop resps m out with
    | none => rw [h1] at h; cases h
    | some x =>
      obtain ⟨step, rest1⟩ := x
      rw [h1] at h
      cases step with
      | ok rows k =>
        simp only [Option.some.injEq, Prod.mk.injEq] at h
        exact ⟨0, Nat.succ_pos n, h.2.1.symm⟩
      | fail e out2 =>
        dsimp only at h
        by_cases hn : n = 0
        · rw [if_pos hn] at h
          simp only [Option.some.injEq, Prod.mk.injEq] at h
          exact ⟨0, Nat.succ_pos n, h.2.1.symm⟩
        · rw [if_neg hn] at h
          cases h2 : retryLoop n (delay * 2) rest1 m out2 with
          | none => rw [h2] at h; cases h
          | some y =>
            obtain ⟨res2, s2, r2⟩ := y
            rw [h2] at h
            dsimp only at h
            simp only [Option.some.injEq, Prod.mk.injEq] at h
            obtain ⟨j, hj, hs⟩ := ih (delay * 2) rest1 m out2 res2 s2 r2 h2
            refine ⟨j + 1, Nat.succ_lt_succ hj, ?_⟩
            rw [← h.2.1, hs]
            rfl

/-- An attempt over a script without error responses never fails. -/
theorem attemptLoop_no_err (m : Option Int) : ∀ (resps : List Resp) (out : List Rec),
    (∀ e, Resp.err e ∉ resps) →
    ∀ (e : Nat) (out2 : List Rec) (rest : List Resp),
      attemptLoop resps m out ≠ some (.fail e out2, rest) := by
  intro resps
  induction resps with
  | nil =>
    intro out h e out2 rest
    simp [attemptLoop]
  | cons r rest ih =>
    intro out h e out2 rest2 hcontra
    cases r with
    | err e2 => exact h e2 (List.mem_cons_self _ _)
    | page recs k =>
      rw [attemptLoop_page] at hcontra
      by_cases hl : (pushPage m out recs).length > 0
      · rw [if_pos hl] at hcontra
        cases hcontra
      · rw [if_neg hl] at hcontra
        cases k with
        | none => cases hcontra
        | some c =>
          exact ih (pushPage m out recs)
            (fun e3 hmem => h e3 (List.mem_cons_of_mem _ hmem)) e out2 rest2 hcontra

/-- C4: on a cache miss the retry loop makes at most 3 attempts with the
1000 ms then 2000 ms backoff; two failures followed by a successful
attempt yield the successful result after sleeping 1000 and 2000 ms; three
failures propagate the third error; a successful first attempt (however
many pages, including empty ones, it traverses) sleeps never; and the
sleep list is always a prefix of the schedule 1000, 2000. -/
theorem c4_retry_schedule (report tenant : String) (params : FetchParams) (cache : Cache)
    (now : Nat) (e1 e2 e3 : Nat) (resps rest : List Resp) (out : List Rec)
    (k : Option String)
    (hep : ¬ ENDPOINTS report = none)
    (hmiss : cacheMiss cache (makeCacheKey report tenant params) now) :
    (attemptLoop resps params.maxRows [] = some (.ok out k, rest) →
      fetchReport report tenant params cache now (Resp.err e1 :: Resp.err e2 :: resps) =
        some (.ok (.obj (postProcess report out) k),
          cacheSet cache (makeCacheKey report tenant params)
            ⟨now + CACHE_TTL, postProcess report out⟩, [1000, 2000], rest))
    ∧ (fetchReport report tenant params cache now [Resp.err e1, Resp.err e2, Resp.err e3] =
        some (.error (.upstream e3), cache, [1000, 2000], []))
    ∧ (attemptLoop resps params.maxRows [] = some (.ok out k, rest) →
      fetchReport report tenant params cache now resps =
        some (.ok (.obj (postProcess report out) k),
          cacheSet cache (makeCacheKey report tenant params)
            ⟨now + CACHE_TTL, postProcess report out⟩, [], rest))
    ∧ (∀ res c2 sleeps rest2,
        fetchReport report tenant params cache now resps = some (res, c2, sleeps, rest2) →
        sleeps = [] ∨ sleeps = [1000] ∨ sleeps = [1000, 2000])
    ∧ ((∀ e, Resp.err e ∉ resps) →
        ∀ res c2 sleeps rest2,
        fetchReport report tenant params cache now resps = some (res, c2, sleeps, rest2) →
        sleeps = []) := by
  refine ⟨?_, ?_, ?_, ?_, ?_⟩
  · intro h
    have hr1 : retryLoop 1 4000 resps params.maxRows [] =
        some (.ok (out, k), [], rest) := retryLoop_ok 0 4000 _ _ _ _ _ _ h
    have hr2 : retryLoop 2 2000 (Resp.err e2 :: resps) params.maxRows [] =
        some (.ok (out, k), [2000], rest) :=
      retryLoop_fail_step 1 2000 e2 _ _ _ _ _ _ _ _ (by decide)
        (attemptLoop_err e2 resps params.maxRows []) hr1
    have hr3 : retryLoop 3 1000 (Resp.err e1 :: Resp.err e2 :: resps) params.maxRows [] =
        some (.ok (out, k), [1000, 2000], rest) :=
      retryLoop_fail_step 2 1000 e1 _ _ _ _ _ _ _ _ (by decide)
        (attemptLoop_err e1 _ params.maxRows []) hr2
    rw [fetchReport_miss report tenant params cache now _ hep hmiss]
    unfold fetchFresh
    simp only [MAX_RETRIES]
    rw [hr3]
  · have hr1 : retryLoop 1 4000 [Resp.err e3] params.maxRows [] =
        some (.error e3, [], []) :=
      retryLoop_fail_final 4000 e3 _ _ _ _ _ (attemptLoop_err e3 [] params.maxRows [])
    have hr2 : retryLoop 2 2000 [Resp.err e2, Resp.err e3] params.maxRows [] =
        some (.error e3, [2000], []) :=
      retryLoop_fail_step 1 2000 e2 _ _ _ _ _ _ _ _ (by decide)
        (attemptLoop_err e2 _ params.maxRows []) hr1
    have hr3 : retryLoop 3 1000 [Resp.err e1, Resp.err e2, Resp.err e3] params.maxRows [] =
        some (.error e3, [1000, 2000], []) :=
      retryLoop_fail_step 2 1000 e1 _ _ _ _ _ _ _ _ (by decide)
        (attemptLoop_err e1 _ params.maxRows []) hr2
    rw [fetchReport_miss report tenant params cache now _ hep hmiss]
    unfold fetchFresh
    simp only [MAX_RETRIES]
    rw [hr3]
  · intro h
    have hr3 : retryLoop 3 1000 resps params.maxRows [] =
        some (.ok (out, k), [], rest) := retryLoop_ok 2 1000 _ _ _ _ _ _ h
    rw [fetchReport_miss report tenant params cache now _ hep hmiss]
    unfold fetchFresh
    simp only [MAX_RETRIES]
    rw [hr3]
  · intro res c2 sleeps rest2 h
    rw [fetchReport_miss report tenant params cache now _ hep hmiss] at h
    unfold fetchFresh at h
    simp only [MAX_RETRIES] at h
    cases hr : retryLoop 3 1000 resps params.maxRows [] with
    | none => rw [hr] at h; cases h
    | some y =>
      obtain ⟨res0, s0, r0⟩ := y
      rw [hr] at h
      obtain ⟨j, hj, hs⟩ := retryLoop_sleeps_backoffs 3 1000 resps params.maxRows []
        res0 s0 r0 hr
      have hsl : sleeps = s0 := by
        cases res0 with
        | error e =>
          dsimp only at h
          simp only [Option.some.injEq, Prod.mk.injEq] at h
          exact h.2.2.1.symm
        | ok p =>
          obtain ⟨o2, k2⟩ := p
          dsimp only at h
          simp only [Option.some.injEq, Prod.mk.injEq] at h
          exact h.2.2.1.symm
      rw [hsl, hs]
      interval_cases j
      · exact Or.inl rfl
      · exact Or.inr (Or.inl rfl)
      · exact Or.inr (Or.inr rfl)
  · intro hne res c2 sleeps rest2 h
    rw [fetchReport_miss report tenant params cache now _ hep hmiss] at h
    unfold fetchFresh at h
    simp only [MAX_RETRIES] at h
    rw [show (3 : Nat) = 2 + 1 from rfl, retryLoop_succ] at h
    cases h1 : attemptLoop resps params.maxRows [] with
    | none => rw [h1] at h; cases h
    | some x =>
      obtain ⟨step, rest1⟩ := x
      rw [h1] at h
      cases step with
      | ok rows kk =>
        dsimp only at h
        simp only [Option.some.injEq, Prod.mk.injEq] at h
        exact h.2.2.1.symm
      | fail e out2 =>
        exact absurd h1 (attemptLoop_no_err params.maxRows resps [] hne e out2 rest1)

theorem c4_retry_schedule_witness :
    fetchReport "cdrs" "t" params0 [] 0 [Resp.err 1, Resp.err 2, Resp.err 3] =
      some (.error (.upstream 3), [], [1000, 2000], []) :=
  (c4_retry_schedule "cdrs" "t" params0 [] 0 1 2 3 [] [] [] none (by decide)
    (fun e he => by cases he)).2.1

/-- C5: the pagination loop stops as soon as the accumulator is non-empty,
returning the page cursor as next even when a further cursor exists; with
an empty accumulator it stops without cursor and continues with one; and a
fresh two-page call (page 1 one record plus cursor C, page 2 one record
without cursor) returns only the first record with next C, leaving page 2
unconsumed. -/
theorem c5_early_exit (recs : List Rec) (k : Option String) (rest : List Resp)
    (m : Option Int) (out : List Rec) :
    ((pushPage m out recs).length > 0 →
      attemptLoop (Resp.page recs k :: rest) m out =
        some (.ok (pushPage m out recs) k, rest))
    ∧ ((pushPage m out recs).length = 0 → k = none →
      attemptLoop (Resp.page recs k :: rest) m out =
        some (.ok (pushPage m out recs) none, rest))
    ∧ ((pushPage m out recs).length = 0 → ∀ c, k = some c →
      attemptLoop (Resp.page recs k :: rest) m out =
        attemptLoop rest m (pushPage m out recs))
    ∧ fetchReport "cdrs" "t" params0 [] 0
        [Resp.page [rec0] (some "C"), Resp.page [rec1] none] =
      some (.ok (.obj [rec0] (some "C")), [("cdrs|t||", ⟨300000, [rec0]⟩)], [],
        [Resp.page [rec1] none]) := by
  refine ⟨?_, ?_, ?_, rfl⟩
  · intro h
    rw [attemptLoop_page, if_pos h]
  · intro h hk
    subst hk
    rw [attemptLoop_page, if_neg (by omega)]
  · intro h c hk
    subst hk
    rw [attemptLoop_page, if_neg (by omega)]

theorem c5_early_exit_witness :
    attemptLoop [Resp.page [rec0] (some "C")] none [] =
      some (.ok [rec0] (some "C"), []) :=
  (c5_early_exit [rec0] (some "C") [] none []).1 (by decide)

theorem pushPage_cap (m : Int) (hm : 0 < m) (out recs : List Rec)
    (h : (out.length : Int) ≤ m) :
    ((pushPage (some m) out recs).length : Int) ≤ m := by
  have ht : jsRemaining (some m) out.length recs.length = m - out.length := by
    unfold jsRemaining
    rw [if_pos (show jsTruthyInt (some m) = true by simp [jsTruthyInt]; omega)]
    rfl
  simp only [pushPage]
  rw [ht]
  by_cases hr : (0 : Int) < m - out.length
  · rw [if_pos hr, List.length_append, List.length_take]
    push_cast
    omega
  · rw [if_neg hr]
    exact h

/-- The pagination loop preserves the cap invariant: whatever step it
returns, the carried accumulator stays below the positive maxRows. -/
theorem attemptLoop_cap (m : Int) (hm : 0 < m) : ∀ (resps : List Resp) (out : List Rec),
    (out.length : Int) ≤ m →
    ∀ step rest, attemptLoop resps (some m) out = some (step, rest) →
    (∀ rows k, step = .ok rows k → (rows.length : Int) ≤ m) ∧
    (∀ e out2, step = .fail e out2 → (out2.length : Int) ≤ m) := by
  intro resps
  induction resps with
  | nil =>
    intro out h step rest hc
    cases hc
  | cons r rest0 ih =>
    intro out h step rest hc
    cases r with
    | err e =>
      rw [attemptLoop_err] at hc
      simp only [Option.some.injEq, Prod.mk.injEq] at hc
      obtain ⟨hstep, -⟩ := hc
      subst hstep
      refine ⟨(fun rows k hk => nomatch hk), fun e2 out2 hk => ?_⟩
      cases hk
      exact h
    | page recs k =>
      rw [attemptLoop_page] at hc
      by_cases hl : (pushPage (some m) out recs).length > 0
      · rw [if_pos hl] at hc
        simp only [Option.some.injEq, Prod.mk.injEq] at hc
        obtain ⟨hstep, -⟩ := hc
        subst hstep
        refine ⟨fun rows k2 hk => ?_, (fun e2 out2 hk => nomatch hk)⟩
        cases hk
        exact pushPage_cap m hm out recs h
      · rw [if_neg hl] at hc
        cases k with
        | none =>
          simp only [Option.some.injEq, Prod.mk.injEq] at hc
          obtain ⟨hstep, -⟩ := hc
          subst hstep
          refine ⟨fun rows k2 hk => ?_, (fun e2 out2 hk => nomatch hk)⟩
          cases hk
          exact pushPage_cap m hm out recs h
        | some c =>
          exact ih (pushPage (some m) out recs)
            (pushPage_cap m hm out recs h) step rest hc

/-- The retry loop preserves the cap: a successful run returns at most
maxRows rows. -/
theorem retryLoop_cap (m : Int) (hm : 0 < m) : ∀ (n : Nat) (delay : Nat)
    (resps : List Resp) (out : List Rec), (out.length : Int) ≤ m →
    ∀ rows k sleeps rest,
      retryLoop n delay resps (some m) out = some (.ok (rows, k), sleeps, rest) →
      (rows.length : Int) ≤ m := by
  intro n
  induction n with
  | zero =>
    intro delay resps out h rows k sleeps rest hr
    cases hr
  | succ n ih =>
    intro delay resps out h rows k sleeps rest hr
    rw [retryLoop_succ] at hr
    cases h1 : attemptLoop resps (some m) out with
    | none => rw [h1] at hr; cases hr
    | some x =>
      obtain ⟨step, rest1⟩ := x
      rw [h1] at hr
      cases step with
      | ok rows2 k2 =>
        dsimp only at hr
        simp only [Option.some.injEq, Prod.mk.injEq, Except.ok.injEq] at hr
        obtain ⟨⟨hrows, -⟩, -, -⟩ := hr
        subst hrows
        exact (attemptLoop_cap m hm resps out h _ _ h1).1 rows2 k2 rfl
      | fail e out2 =>
        dsimp only at hr
        by_cases hn : n = 0
        · rw [if_pos hn] at hr
          simp at hr
        · rw [if_neg hn] at hr
          cases h2 : retryLoop n (delay * 2) rest1 (some m) out2 with
          | none => rw [h2] at hr; cases hr
          | some y =>
            obtain ⟨res2, s2, r2⟩ := y
            rw [h2] at hr
            dsimp only at hr
            simp only [Option.some.injEq, Prod.mk.injEq] at hr
            obtain ⟨hres, -, -⟩ := hr
            subst hres
            exact ih (delay * 2) rest1 out2
              ((attemptLoop_cap m hm resps out h _ _ h1).2 e out2 rfl)
              rows k s2 r2 h2

theorem dedupFirst_length_le : ∀ (l : List Rec) (seen : List String),
    (dedupFirst l seen).length ≤ l.length := by
  intro l
  induction l with
  | nil => intro seen; simp [dedupFirst]
  | cons r rest ih =>
    intro seen
    unfold dedupFirst
    by_cases h1 : !jsTruthyStr r.call_id
    · rw [if_pos h1]
      simpa using Nat.succ_le_succ (ih seen)
    · rw [if_neg h1]
      by_cases h2 : List.contains seen (r.call_id.getD "")
      · rw [if_pos h2]
        exact (ih seen).trans (Nat.le_succ _)
      · rw [if_neg h2]
        simpa using Nat.succ_le_succ (ih _)

theorem postProcess_length_le (report : String) (l : List Rec) :
    (postProcess report l).length ≤ l.length := by
  by_cases hq : report = "queueCalls"
  · subst hq
    have hpp : postProcess "queueCalls" l =
        (dedupFirst (l.map deriveDurations) []).map truncAgentHistory := by
      simp [postProcess]
    rw [hpp]
    calc ((dedupFirst (l.map deriveDurations) []).map truncAgentHistory).length
        = (dedupFirst (l.map deriveDurations) []).length := List.length_map _ _
      _ ≤ (l.map deriveDurations).length := dedupFirst_length_le _ _
      _ = l.length := List.length_map _ _
  · by_cases ho : report = "queueOutboundCalls"
    · subst ho
      have hne : ¬("queueOutboundCalls" : String) = "queueCalls" := by decide
      have hpp : postProcess "queueOutboundCalls" l =
          (l.map deriveDurations).map truncQueueHistory := by
        simp [postProcess, hne]
      rw [hpp]
      simp
    · have hpp : postProcess report l = l := by
        simp [postProcess, hq, ho]
      rw [hpp]

/-- C6 counterexample: maxRows is specified as 0, yet the call returns one
row, exceeding the specified cap, because 0 is falsy and disables the
truncation. -/
theorem c6_zero_cap_exceeded :
    fetchReport "cdrs" "t" ⟨none, none, some 0⟩ [] 0 [Resp.page [rec0] none] =
      some (.ok (.obj [rec0] none), [("cdrs|t||", ⟨300000, [rec0]⟩)], [], [])
    ∧ ¬ (([rec0].length : Int) ≤ 0) :=
  ⟨rfl, by decide⟩

/-- C6 (amended): when params.maxRows is specified as a positive (hence
truthy) integer, each page append keeps the accumulator at or below
maxRows, and every fetched (object-shaped) result has at most maxRows
rows. -/
theorem c6_cap_invariant (m : Int) (hm : 0 < m) :
    (∀ (out recs : List Rec), (out.length : Int) ≤ m →
      ((pushPage (some m) out recs).length : Int) ≤ m)
    ∧ (∀ (report tenant : String) (params : FetchParams) (cache : Cache) (now : Nat)
        (resps : List Resp) (rows : List Rec) (next : Option String) (c2 : Cache)
        (sleeps : List Nat) (rest : List Resp),
        params.maxRows = some m →
        fetchReport report tenant params cache now resps =
          some (.ok (.obj rows next), c2, sleeps, rest) →
        (rows.length : Int) ≤ m) := by
  refine ⟨fun out recs h => pushPage_cap m hm out recs h, ?_⟩
  intro report tenant params cache now resps rows next c2 sleeps rest hmr h
  have hfresh : fetchFresh report tenant params cache now resps =
      some (.ok (.obj rows next), c2, sleeps, rest) → (rows.length : Int) ≤ m := by
    intro hh
    unfold fetchFresh at hh
    cases hr : retryLoop MAX_RETRIES 1000 resps params.maxRows [] with
    | none => rw [hr] at hh; cases hh
    | some y =>
      obtain ⟨res0, s0, r0⟩ := y
      rw [hr] at hh
      cases res0 with
      | error e => simp at hh
      | ok p =>
        obtain ⟨out0, k0⟩ := p
        dsimp only at hh
        simp only [Option.some.injEq, Prod.mk.injEq, Except.ok.injEq,
          JsValue.obj.injEq] at hh
        obtain ⟨⟨hrows, -⟩, -, -⟩ := hh
        rw [hmr] at hr
        have hout : (out0.length : Int) ≤ m :=
          retryLoop_cap m hm MAX_RETRIES 1000 resps [] (by simp; omega)
            out0 k0 s0 r0 hr
        rw [← hrows]
        calc ((postProcess report out0).length : Int)
            ≤ (out0.length : Int) := by
              exact_mod_cast postProcess_length_le report out0
          _ ≤ m := hout
  unfold fetchReport at h
  by_cases he : ENDPOINTS report = none
  · rw [if_pos he] at h
    simp at h
  · rw [if_neg he] at h
    cases hg : cacheGet cache (makeCacheKey report tenant params) with
    | some entry =>
      rw [hg] at h
      dsimp only at h
      by_cases ht : now < entry.expires
      · rw [if_pos ht] at h
        simp at h
      · rw [if_neg ht] at h
        exact hfresh h
    | none =>
      rw [hg] at h
      exact hfresh h

theorem c6_cap_invariant_witness :
    (([rec0].length : Int) ≤ 1) :=
  (c6_cap_invariant 1 (by decide)).2 "cdrs" "t" ⟨none, none, some 1⟩ [] 0
    [Resp.page [rec0, rec1] none] [rec0] none
    [("cdrs|t||", ⟨300000, [rec0]⟩)] [] [] rfl rfl

/-- C10: a specified but falsy maxRows of 0 disables the cap entirely: the
per-page remaining count falls back to the page length (pushPage behaves
exactly as with no maxRows), and a call with maxRows 0 returns more than 0
rows. -/
theorem c10_zero_cap_disabled :
    (∀ (out recs : List Rec), pushPage (some 0) out recs = pushPage none out recs)
    ∧ fetchReport "cdrs" "t" ⟨none, none, some 0⟩ [] 0 [Resp.page [rec0, rec1] none] =
        some (.ok (.obj [rec0, rec1] none), [("cdrs|t||", ⟨300000, [rec0, rec1]⟩)], [], [])
    ∧ 0 < [rec0, rec1].length :=
  ⟨fun out recs => rfl, rfl, by decide⟩

theorem deriveTalked_wait (r : Rec) : (deriveTalked r).wait_duration = r.wait_duration := by
  unfold deriveTalked
  split_ifs <;> rfl

theorem deriveTalked_called (r : Rec) : (deriveTalked r).called_time = r.called_time := by
  unfold deriveTalked
  split_ifs <;> rfl

theorem deriveTalked_answered (r : Rec) :
    (deriveTalked r).answered_time = r.answered_time := by
  unfold deriveTalked
  split_ifs <;> rfl

theorem deriveTalked_hangup (r : Rec) : (deriveTalked r).hangup_time = r.hangup_time := by
  unfold deriveTalked
  split_ifs <;> rfl

theorem deriveWait_talked (r : Rec) :
    (deriveWait r).talked_duration = r.talked_duration := by
  unfold deriveWait
  split_ifs <;> rfl

/-- C7 counterexample: a queueCalls row with talked_duration absent while
hangup_time (200) and answered_time (0) are both present is left underived
by the code, because 0 is falsy; the claim requires talked_duration to
become hangup_time - answered_time = 200. -/
theorem c7_zero_answered_underived :
    postProcess "queueCalls" [r7] = [r7]
    ∧ r7.talked_duration = none
    ∧ r7.hangup_time = some 200
    ∧ r7.answered_time = some 0
    ∧ (none : Option Int) ≠ some (200 - 0) :=
  ⟨rfl, rfl, rfl, rfl, by decide⟩

/-- C7 (amended): with presence read as JavaScript truthiness (present and
non-zero): a truthy-absent talked_duration with truthy hangup_time and
answered_time is derived as their difference; a truthy-absent
wait_duration with truthy called_time becomes answered_time - called_time
when answered_time is truthy, else hangup_time - called_time when
hangup_time is truthy — one derivation, in that priority order; and the
concrete 100/150/200 queueCalls row normalizes to wait 50, talked 50. -/
theorem c7_duration_derivation (r : Rec) :
    (jsTruthyInt r.talked_duration = false → jsTruthyInt r.hangup_time = true →
      jsTruthyInt r.answered_time = true →
      (deriveDurations r).talked_duration =
        some (r.hangup_time.getD 0 - r.answered_time.getD 0))
    ∧ (jsTruthyInt r.wait_duration = false → jsTruthyInt r.called_time = true →
      jsTruthyInt r.answered_time = true →
      (deriveDurations r).wait_duration =
        some (r.answered_time.getD 0 - r.called_time.getD 0))
    ∧ (jsTruthyInt r.wait_duration = false → jsTruthyInt r.called_time = true →
      jsTruthyInt r.answered_time = false → jsTruthyInt r.hangup_time = true →
      (deriveDurations r).wait_duration =
        some (r.hangup_time.getD 0 - r.called_time.getD 0))
    ∧ postProcess "queueCalls" [rEx] = [rExN] := by
  refine ⟨?_, ?_, ?_, rfl⟩
  · intro h1 h2 h3
    unfold deriveDurations
    rw [deriveWait_talked]
    simp [deriveTalked, h1, h2, h3]
  · intro hw hc ha
    unfold deriveDurations
    have e1 := deriveTalked_wait r
    have e2 := deriveTalked_called r
    have e3 := deriveTalked_answered r
    simp [deriveWait, e1, e2, e3, hw, hc, ha]
  · intro hw hc ha hh
    unfold deriveDurations
    have e1 := deriveTalked_wait r
    have e2 := deriveTalked_called r
    have e3 := deriveTalked_answered r
    have e4 := deriveTalked_hangup r
    simp [deriveWait, e1, e2, e3, e4, hw, hc, ha, hh]

theorem c7_duration_derivation_witness :
    (deriveDurations rEx).talked_duration = some ((200 : Int) - 150) :=
  (c7_duration_derivation rEx).1 rfl rfl rfl

theorem dedupFirst_cons_falsy (r : Rec) (rest : List Rec) (seen : List String)
    (h : jsTruthyStr r.call_id = false) :
    dedupFirst (r :: rest) seen = r :: dedupFirst rest seen := by
  conv_lhs => unfold dedupFirst
  rw [if_pos (show (!jsTruthyStr r.call_id) = true by rw [h]; rfl)]

theorem dedupFirst_cons_skip (r : Rec) (rest : List Rec) (seen : List String) (s : String)
    (hs : r.call_id = some s) (hsne : s ≠ "") (hmem : seen.contains s = true) :
    dedupFirst (r :: rest) seen = dedupFirst rest seen := by
  conv_lhs => unfold dedupFirst
  rw [hs]
  dsimp only [Option.getD]
  rw [if_neg (by simp [jsTruthyStr, hsne]), if_pos hmem]

theorem dedupFirst_cons_keep (r : Rec) (rest : List Rec) (seen : List String) (s : String)
    (hs : r.call_id = some s) (hsne : s ≠ "") (hmem : seen.contains s = false) :
    dedupFirst (r :: rest) seen = r :: dedupFirst rest (s :: seen) := by
  conv_lhs => unfold dedupFirst
  rw [hs]
  dsimp only [Option.getD]
  rw [if_neg (by simp [jsTruthyStr, hsne]), if_neg (by simpa using hmem)]

/-- The grouping loop only ever drops rows: its output is a sublist of its
input, so surviving rows keep their first-occurrence order and no row is
invented. -/
theorem dedupFirst_sublist : ∀ (l : List Rec) (seen : List String),
    List.Sublist (dedupFirst l seen) l := by
  intro l
  induction l with
  | nil => intro seen; simp [dedupFirst]
  | cons r rest ih =>
    intro seen
    by_cases h1 : jsTruthyStr r.call_id = false
    · rw [dedupFirst_cons_falsy r rest seen h1]
      exact (ih seen).cons₂ r
    · have hex : ∃ s, r.call_id = some s ∧ s ≠ "" := by
        cases hcid : r.call_id with
        | none => rw [hcid] at h1; simp [jsTruthyStr] at h1
        | some s =>
          refine ⟨s, rfl, fun he => ?_⟩
          rw [hcid, he] at h1
          simp [jsTruthyStr] at h1
      obtain ⟨s, hs, hsne⟩ := hex
      by_cases hmem : seen.contains s
      · rw [dedupFirst_cons_skip r rest seen s hs hsne hmem]
        exact (ih seen).cons r
      · rw [dedupFirst_cons_keep r rest seen s hs hsne (by simpa using hmem)]
        exact (ih (s :: seen)).cons₂ r

/-- Rows with a falsy call_id are kept unconditionally: their count is
preserved by the grouping loop. -/
theorem dedupFirst_countP_falsy : ∀ (l : List Rec) (seen : List String),
    (dedupFirst l seen).countP (fun x => !jsTruthyStr x.call_id) =
      l.countP (fun x => !jsTruthyStr x.call_id) := by
  intro l
  induction l with
  | nil => intro seen; rfl
  | cons r rest ih =>
    intro seen
    by_cases h1 : jsTruthyStr r.call_id = false
    · rw [dedupFirst_cons_falsy r rest seen h1]
      rw [List.countP_cons, List.countP_cons, ih seen]
    · have hex : ∃ s, r.call_id = some s ∧ s ≠ "" := by
        cases hcid : r.call_id with
        | none => rw [hcid] at h1; simp [jsTruthyStr] at h1
        | some s =>
          refine ⟨s, rfl, fun he => ?_⟩
          rw [hcid, he] at h1
          simp [jsTruthyStr] at h1
      obtain ⟨s, hs, hsne⟩ := hex
      have htr : (!jsTruthyStr r.call_id) = false := by
        rw [hs]
        simp [jsTruthyStr, hsne]
      by_cases hmem : seen.contains s
      · rw [dedupFirst_cons_skip r rest seen s hs hsne hmem]
        rw [ih seen, List.countP_cons, htr]
        simp
      · rw [dedupFirst_cons_keep r rest seen s hs hsne (by simpa using hmem)]
        rw [List.countP_cons, List.countP_cons, ih (s :: seen), htr]

theorem contains_cons_ne (seen : List String) (s c : String) (h : ¬ c = s) :
    (s :: seen).contains c = seen.contains c := by
  simp only [List.contains_cons]
  rw [show (c == s) = false from beq_eq_false_iff_ne.mpr h]
  simp

/-- Per distinct non-empty call_id, the grouping loop keeps exactly one
row when any is present and the id is not already in the seen set. -/
theorem dedupFirst_countP_id (c : String) (hc : c ≠ "") :
    ∀ (l : List Rec) (seen : List String),
    (dedupFirst l seen).countP (fun x => x.call_id == some c) =
      if seen.contains c then 0
      else min 1 (l.countP (fun x => x.call_id == some c)) := by
  intro l
  induction l with
  | nil =>
    intro seen
    by_cases h : seen.contains c
    · simp [dedupFirst, h]
    · simp [dedupFirst, h]
  | cons r rest ih =>
    intro seen
    by_cases h1 : jsTruthyStr r.call_id = false
    · have hpr : (r.call_id == some c) = false := by
        cases hcid : r.call_id with
        | none => rfl
        | some s =>
          rw [hcid] at h1
          have hse : s = "" := by
            by_contra hne
            rw [show jsTruthyStr (some s) = true by simp [jsTruthyStr, hne]] at h1
            exact absurd h1 (by decide)
          subst hse
          exact beq_eq_false_iff_ne.mpr (fun he => hc (Option.some.inj he).symm)
      rw [dedupFirst_cons_falsy r rest seen h1]
      rw [List.countP_cons, List.countP_cons, ih seen, hpr]
      simp
    · have hex : ∃ s, r.call_id = some s ∧ s ≠ "" := by
        cases hcid : r.call_id with
        | none => rw [hcid] at h1; simp [jsTruthyStr] at h1
        | some s =>
          refine ⟨s, rfl, fun he => ?_⟩
          rw [hcid, he] at h1
          simp [jsTruthyStr] at h1
      obtain ⟨s, hs, hsne⟩ := hex
      by_cases hmem : seen.contains s
      · rw [dedupFirst_cons_skip r rest seen s hs hsne hmem]
        rw [ih seen, List.countP_cons]
        by_cases hsc : s = c
        · subst hsc
          rw [if_pos hmem, if_pos hmem]
        · have hpr : (r.call_id == some c) = false := by
            rw [hs]
            exact beq_eq_false_iff_ne.mpr (fun he => hsc (Option.some.inj he))
          rw [hpr]
          simp
      · have hmf : seen.contains s = false := Bool.eq_false_iff.mpr hmem
        rw [dedupFirst_cons_keep r rest seen s hs hsne hmf]
        rw [List.countP_cons, List.countP_cons, ih (s :: seen)]
        by_cases hsc : s = c
        · subst hsc
          have hpr : (r.call_id == some s) = true := by
            rw [hs]
            exact beq_self_eq_true _
          have hcont : (s :: seen).contains s = true := by
            simp [List.contains_cons]
          rw [hpr, hcont]
          simp only [eq_self_iff_true, if_true]
          rw [if_neg hmem]
          omega
        · have hpr : (r.call_id == some c) = false := by
            rw [hs]
            exact beq_eq_false_iff_ne.mpr (fun he => hsc (Option.some.inj he))
          rw [hpr, contains_cons_ne seen s c (fun he => hsc he.symm)]
          simp

/-- find? over a cons whose head satisfies the predicate. -/
theorem find?_cons_pos (p : Rec → Bool) (a : Rec) (l : List Rec) (h : p a = true) :
    List.find? p (a :: l) = some a := by
  simp [List.find?, h]

/-- find? over a cons whose head fails the predicate. -/
theorem find?_cons_neg (p : Rec → Bool) (a : Rec) (l : List Rec) (h : p a = false) :
    List.find? p (a :: l) = List.find? p l := by
  simp [List.find?, h]

/-- The row kept for a non-empty call_id is the first-seen one: find?
commutes with the grouping loop for ids not yet seen. -/
theorem dedupFirst_find_id (c : String) (hc : c ≠ "") :
    ∀ (l : List Rec) (seen : List String),
    seen.contains c = false →
    (dedupFirst l seen).find? (fun x => x.call_id == some c) =
      l.find? (fun x => x.call_id == some c) := by
  intro l
  induction l with
  | nil => intro seen hsc; rfl
  | cons r rest ih =>
    intro seen hsc
    by_cases h1 : jsTruthyStr r.call_id = false
    · have hpr : (r.call_id == some c) = false := by
        cases hcid : r.call_id with
        | none => rfl
        | some s =>
          rw [hcid] at h1
          have hse : s = "" := by
            by_contra hne
            rw [show jsTruthyStr (some s) = true by simp [jsTruthyStr, hne]] at h1
            exact absurd h1 (by decide)
          subst hse
          exact beq_eq_false_iff_ne.mpr (fun he => hc (Option.some.inj he).symm)
      rw [dedupFirst_cons_falsy r rest seen h1]
      rw [find?_cons_neg _ _ _ hpr, find?_cons_neg _ _ _ hpr]
      exact ih seen hsc
    · have hex : ∃ s, r.call_id = some s ∧ s ≠ "" := by
        cases hcid : r.call_id with
        | none => rw [hcid] at h1; simp [jsTruthyStr] at h1
        | some s =>
          refine ⟨s, rfl, fun he => ?_⟩
          rw [hcid, he] at h1
          simp [jsTruthyStr] at h1
      obtain ⟨s, hs, hsne⟩ := hex
      by_cases hmem : seen.contains s
      · have hsc2 : ¬ s = c := by
          intro he
          subst he
          rw [hmem] at hsc
          exact absurd hsc (by decide)
        have hpr : (r.call_id == some c) = false := by
          rw [hs]
          exact beq_eq_false_iff_ne.mpr (fun he => hsc2 (Option.some.inj he))
        rw [dedupFirst_cons_skip r rest seen s hs hsne hmem]
        rw [find?_cons_neg _ _ _ hpr]
        exact ih seen hsc
      · have hmf : seen.contains s = false := Bool.eq_false_iff.mpr hmem
        rw [dedupFirst_cons_keep r rest seen s hs hsne hmf]
        by_cases hsc2 : s = c
        · subst hsc2
          have hpr : (r.call_id == some s) = true := by
            rw [hs]
            exact beq_self_eq_true _
          rw [find?_cons_pos _ _ _ hpr, find?_cons_pos _ _ _ hpr]
        · have hpr : (r.call_id == some c) = false := by
            rw [hs]
            exact beq_eq_false_iff_ne.mpr (fun he => hsc2 (Option.some.inj he))
          rw [find?_cons_neg _ _ _ hpr, find?_cons_neg _ _ _ hpr]
          exact ih (s :: seen)
            (by rw [contains_cons_ne seen s c (fun he => hsc2 he.symm)]; exact hsc)
/-- Truncating agent_history keeps exactly the first element whenever the
array is non-empty (a singleton is left as is, which is the same value). -/
theorem truncAgentHistory_head (r : Rec) (h : String) (t : List String)
    (hah : r.agent_history = some (h :: t)) :
    (truncAgentHistory r).agent_history = some [h] := by
  unfold truncAgentHistory
  rw [hah]
  dsimp only
  cases t with
  | nil =>
    rw [if_neg (by simp only [List.length_cons, List.length_nil]; omega)]
    exact hah
  | cons b t2 =>
    rw [if_pos (by simp only [List.length_cons]; omega)]
    rfl

/-- C8 counterexample: two distinct rows share the same call_id (the empty
string), yet both survive queueCalls normalization, so the output does not
contain exactly one first-seen row for that distinct call_id. -/
theorem c8_empty_call_id_not_collapsed :
    postProcess "queueCalls" [rE1, rE2] = [rE1, rE2]
    ∧ rE1.call_id = rE2.call_id
    ∧ rE1.call_id = some ""
    ∧ rE1 ≠ rE2 :=
  ⟨rfl, rfl, rfl, by decide⟩

/-- C8 (amended): with lacking a call_id read as JavaScript falsiness
(absent or empty string): the queueCalls grouping returns a sublist of the
input (stable order, no additions); rows with a falsy call_id are all
kept; for each distinct non-empty call_id exactly one row survives when
any is present — the first-seen one; each surviving row with a non-empty
agent_history keeps only its first element; and two rows sharing the
non-empty call_id X with multi-element histories collapse to the
first-seen row with a one-element agent_history. -/
theorem c8_queueCalls_dedup (l : List Rec) (c : String) (hc : c ≠ "") :
    List.Sublist (dedupFirst l []) l
    ∧ (dedupFirst l []).countP (fun x => !jsTruthyStr x.call_id) =
        l.countP (fun x => !jsTruthyStr x.call_id)
    ∧ (dedupFirst l []).countP (fun x => x.call_id == some c) =
        min 1 (l.countP (fun x => x.call_id == some c))
    ∧ (dedupFirst l []).find? (fun x => x.call_id == some c) =
        l.find? (fun x => x.call_id == some c)
    ∧ (∀ r h t, r.agent_history = some (h :: t) →
        (truncAgentHistory r).agent_history = some [h])
    ∧ postProcess "queueCalls" l =
        (dedupFirst (l.map deriveDurations) []).map truncAgentHistory
    ∧ postProcess "queueCalls" [rX1, rX2] = [rX1t] := by
  refine ⟨dedupFirst_sublist l [], dedupFirst_countP_falsy l [], ?_, ?_,
    fun r h t hah => truncAgentHistory_head r h t hah, by simp [postProcess], rfl⟩
  · rw [dedupFirst_countP_id c hc l []]
    rfl
  · exact dedupFirst_find_id c hc l [] rfl

theorem c8_queueCalls_dedup_witness :
    (dedupFirst [rX1, rX2] []).countP (fun x => x.call_id == some "X") =
      min 1 ([rX1, rX2].countP (fun x => x.call_id == some "X")) :=
  (c8_queueCalls_dedup [rX1, rX2] "X" (by decide)).2.2.1

/-- Every field of a row other than queue_history is untouched by the
queue_history truncation. -/
theorem truncQueueHistory_fields (r : Rec) :
    (truncQueueHistory r).agent_history = r.agent_history
    ∧ (truncQueueHistory r).call_id = r.call_id
    ∧ (truncQueueHistory r).called_time = r.called_time
    ∧ (truncQueueHistory r).answered_time = r.answered_time
    ∧ (truncQueueHistory r).hangup_time = r.hangup_time
    ∧ (truncQueueHistory r).wait_duration = r.wait_duration
    ∧ (truncQueueHistory r).talked_duration = r.talked_duration
    ∧ (truncQueueHistory r).other = r.other := by
  unfold truncQueueHistory
  cases hq : r.queue_history with
  | none => exact ⟨rfl, rfl, rfl, rfl, rfl, rfl, rfl, rfl⟩
  | some h =>
    dsimp only
    split_ifs
    · exact ⟨rfl, rfl, rfl, rfl, rfl, rfl, rfl, rfl⟩
    · exact ⟨rfl, rfl, rfl, rfl, rfl, rfl, rfl, rfl⟩

/-- C9: queueOutboundCalls truncates a multi-element queue_history to its
first (oldest) element, leaves singletons and absent histories alone,
never touches agent_history or any other field, and the normalization is a
per-row map: no rows are added, removed or reordered. -/
theorem c9_queue_history_trunc (r : Rec) (a b : String) (t : List String) (l : List Rec) :
    (r.queue_history = some (a :: b :: t) → (truncQueueHistory r).queue_history = some [a])
    ∧ (truncQueueHistory r).agent_history = r.agent_history
    ∧ (truncQueueHistory r).call_id = r.call_id
    ∧ (truncQueueHistory r).called_time = r.called_time
    ∧ (truncQueueHistory r).answered_time = r.answered_time
    ∧ (truncQueueHistory r).hangup_time = r.hangup_time
    ∧ (truncQueueHistory r).wait_duration = r.wait_duration
    ∧ (truncQueueHistory r).talked_duration = r.talked_duration
    ∧ (truncQueueHistory r).other = r.other
    ∧ (r.queue_history = some [a] → truncQueueHistory r = r)
    ∧ (r.queue_history = none → truncQueueHistory r = r)
    ∧ (l.map truncQueueHistory).length = l.length
    ∧ postProcess "queueOutboundCalls" l = (l.map deriveDurations).map truncQueueHistory := by
  obtain ⟨f1, f2, f3, f4, f5, f6, f7, f8⟩ := truncQueueHistory_fields r
  refine ⟨?_, f1, f2, f3, f4, f5, f6, f7, f8, ?_, ?_, List.length_map _ _, ?_⟩
  · intro hq
    unfold truncQueueHistory
    rw [hq]
    dsimp only
    rw [if_pos (by simp only [List.length_cons]; omega)]
    rfl
  · intro hq
    unfold truncQueueHistory
    rw [hq]
    dsimp only
    rw [if_neg (by simp only [List.length_cons, List.length_nil]; omega)]
  · intro hq
    unfold truncQueueHistory
    rw [hq]
  · have hne : ¬("queueOutboundCalls" : String) = "queueCalls" := by decide
    simp [postProcess, hne]

theorem c9_queue_history_trunc_witness :
    (truncQueueHistory rQ).queue_history = some ["a"] :=
  (c9_queue_history_trunc rQ "a" "b" ["c"] []).1 rfl

end ShamsReport
